import Mathlib

/-!
# Verification of the astronaut daily-schedule manager

A shallow embedding of the TypeScript schedule manager: a `Task` value with
integer minute intervals, and a `ScheduleManager` whose state is the ordered
list of tasks.  Mutating operations (`addTask`, `editTask`, `removeTaskById`,
`markCompleted`) are embedded as pure functions from the task list to an
`OpOutput` recording the returned result, the new task list, the broadcast
observer messages and the persistence writes.  JavaScript string operations
(`toLowerCase`, `trim`, the `HH:mm` regex parse, `padStart`) are embedded as
structural functions on character lists, matching their behaviour on the
ASCII data this program handles.
-/

namespace Schedule

/-- The `Task` model: one scheduled interval, with times in minutes since
midnight.  `priority` is kept as a string, as the manager compares it
case-insensitively and `editTask` accepts arbitrary values for it. -/
structure Task where
  id : String
  title : String
  startMinutes : Nat
  endMinutes : Nat
  priority : String
  description : Option String := none
  completed : Bool := false
  createdAt : Nat := 0
deriving Repr, DecidableEq, Inhabited

/-- ASCII lower-casing of one character, as JavaScript `toLowerCase` acts on
the ASCII range. -/
def jsCharLower (c : Char) : Char :=
  if 'A' ≤ c && c ≤ 'Z' then Char.ofNat (c.toNat + 32) else c

/-- Embedding of JavaScript `String.prototype.toLowerCase` (ASCII range). -/
def jsToLower (s : String) : String :=
  ⟨s.data.map jsCharLower⟩

/-- Whitespace test used by the embedding of JavaScript `trim`. -/
def jsIsWs (c : Char) : Bool :=
  c == ' ' || c == '\t' || c == '\n' || c == '\r'

/-- Embedding of JavaScript `String.prototype.trim`. -/
def jsTrim (s : String) : String :=
  ⟨((s.data.dropWhile jsIsWs).reverse.dropWhile jsIsWs).reverse⟩

/-- `n.toString().padStart(2, '0')` from the `HH:mm` formatting code. -/
def padStart2 (s : String) : String :=
  if s.length < 2 then ⟨List.replicate (2 - s.length) '0' ++ s.data⟩ else s

/-- `minutesToHHMM` from `timeUtils`: format minutes-since-midnight as
`HH:mm`. -/
def minutesToHHMM (mins : Nat) : String :=
  padStart2 (toString (mins / 60)) ++ ":" ++ padStart2 (toString (mins % 60))

/-- `Task.getStartHHMM`. -/
def Task.getStartHHMM (t : Task) : String := minutesToHHMM t.startMinutes

/-- `Task.getEndHHMM`. -/
def Task.getEndHHMM (t : Task) : String := minutesToHHMM t.endMinutes

/-- Result record of a mutating `ScheduleManager` operation: the returned
`{success, message}` object, the task list after the call, the messages
broadcast to observers, and the task lists written to `Storage.saveTasks`. -/
structure OpOutput where
  success : Bool
  message : String
  tasks : List Task
  notes : List String
  saves : List (List Task)
deriving Repr, DecidableEq

namespace ScheduleManager

/-- The binary-search loop body of `ScheduleManager.findInsertIndex`,
with an explicit fuel argument bounding the number of iterations (the loop
runs at most `high - low` times, and every call supplies ample fuel). -/
def findInsertIndexAux (tasks : List Task) (target : Nat) : Nat → Nat → Nat → Nat
  | 0, low, _ => low
  | fuel + 1, low, high =>
    if low < high then
      let mid := (low + high) / 2
      if (tasks.getD mid default).startMinutes < target then
        findInsertIndexAux tasks target fuel (mid + 1) high
      else
        findInsertIndexAux tasks target fuel low mid
    else low

/-- `ScheduleManager.findInsertIndex`: leftmost insertion position for a
given `startMinutes`, found by binary search. -/
def findInsertIndex (tasks : List Task) (startMinutes : Nat) : Nat :=
  findInsertIndexAux tasks startMinutes tasks.length 0 tasks.length

/-- The inline binary search of `ScheduleManager.editTask` (lines 146-155),
textually identical to the `findInsertIndexAux` loop. -/
def editInsertIdxAux (arr : List Task) (target : Nat) : Nat → Nat → Nat → Nat
  | 0, low, _ => low
  | fuel + 1, low, high =>
    if low < high then
      let mid := (low + high) / 2
      if (arr.getD mid default).startMinutes < target then
        editInsertIdxAux arr target fuel (mid + 1) high
      else
        editInsertIdxAux arr target fuel low mid
    else low

/-- Insertion index computed inline by `editTask` on the reduced array. -/
def editInsertIdx (arr : List Task) (startMinutes : Nat) : Nat :=
  editInsertIdxAux arr startMinutes arr.length 0 arr.length

/-- `ScheduleManager.overlaps`: interval overlap test, touching boundary is
non-overlap. -/
def overlaps (aStart aEnd bStart bEnd : Nat) : Bool :=
  decide (aStart < bEnd) && decide (bStart < aEnd)

/-- The `idx - 1 >= 0` predecessor check of `addTask`/`editTask`: the
conflicting predecessor, if any (the access `tasks[idx - 1]` is always in
bounds at the call sites, since the binary search returns an index of at
most `tasks.length`). -/
def prevConflict (arr : List Task) (idx s e : Nat) : Option Task :=
  if 1 ≤ idx then
    let prev := arr.getD (idx - 1) default
    if overlaps prev.startMinutes prev.endMinutes s e then some prev else none
  else none

/-- The `idx < length` successor check of `addTask`/`editTask`: the
conflicting successor, if any. -/
def nextConflict (arr : List Task) (idx s e : Nat) : Option Task :=
  if idx < arr.length then
    let next := arr.getD idx default
    if overlaps next.startMinutes next.endMinutes s e then some next else none
  else none

/-- The combined neighbor check at an insertion index: predecessor first,
then successor, as in the source's two sequential `if` blocks. -/
def findConflict (arr : List Task) (idx s e : Nat) : Option Task :=
  match prevConflict arr idx s e with
  | some p => some p
  | none => nextConflict arr idx s e

/-- Conflict message built by `addTask` for a conflicting neighbor. -/
def addConflictMsg (nb : Task) : String :=
  "Task conflicts with existing task \"" ++ nb.title ++ "\" (" ++
    nb.getStartHHMM ++ "-" ++ nb.getEndHHMM ++ ")."

/-- Broadcast message for a successful `addTask`. -/
def addedMsg (t : Task) : String :=
  "Task added: " ++ t.title ++ " (" ++ t.getStartHHMM ++ "-" ++ t.getEndHHMM ++ ")"

/-- `ScheduleManager.addTask`: binary-search the insertion index, check the
two immediate neighbors, and either fail (state untouched, no save, conflict
broadcast) or insert, save and broadcast. -/
def addTask (tasks : List Task) (task : Task) : OpOutput :=
  let idx := findInsertIndex tasks task.startMinutes
  match findConflict tasks idx task.startMinutes task.endMinutes with
  | some nb =>
    let msg := addConflictMsg nb
    { success := false, message := msg, tasks := tasks, notes := [msg], saves := [] }
  | none =>
    let newTasks := tasks.insertIdx idx task
    { success := true, message := "Task added successfully.", tasks := newTasks,
      notes := [addedMsg task], saves := [newTasks] }

/-- `ScheduleManager.listTasks`: returns a copy of the task list. -/
def listTasks (tasks : List Task) : List Task :=
  tasks

/-- `ScheduleManager.listTasksByPriority`: case-insensitive exact filter;
an empty normalized priority yields the empty list. -/
def listTasksByPriority (tasks : List Task) (priority : String) : List Task :=
  let pNormalized := jsToLower (jsTrim priority)
  if pNormalized = "" then []
  else tasks.filter (fun t => jsToLower t.priority == pNormalized)

/-- `ScheduleManager.findTasksByTitle`: case-insensitive exact title
filter. -/
def findTasksByTitle (tasks : List Task) (title : String) : List Task :=
  let q := jsToLower (jsTrim title)
  tasks.filter (fun t => jsToLower t.title == q)

/-- `ScheduleManager.findTaskById`. -/
def findTaskById (tasks : List Task) (id : String) : Option Task :=
  tasks.find? (fun t => t.id == id)

/-- Broadcast message for a successful `removeTaskById`. -/
def removedMsg (t : Task) : String :=
  "Task removed: " ++ t.title

/-- `ScheduleManager.removeTaskById`. -/
def removeTaskById (tasks : List Task) (id : String) : OpOutput :=
  match tasks.findIdx? (fun t => t.id == id) with
  | none =>
    { success := false, message := "Error: Task not found.", tasks := tasks,
      notes := [], saves := [] }
  | some idx =>
    let removed := tasks.getD idx default
    let newTasks := tasks.eraseIdx idx
    { success := true, message := "Task removed successfully.", tasks := newTasks,
      notes := [removedMsg removed], saves := [newTasks] }

/-- The sparse update object accepted by `editTask`
(`Partial<{title; startMinutes; endMinutes; priority; description}>`);
`none` means the field is absent. -/
structure TaskUpdates where
  title : Option String := none
  startMinutes : Option Nat := none
  endMinutes : Option Nat := none
  priority : Option String := none
  description : Option String := none
deriving Repr, DecidableEq

/-- The candidate task `editTask` builds with `new Task(original.id,
updates.x ?? original.x, ..., original.completed, original.createdAt)`. -/
def mkCandidate (original : Task) (updates : TaskUpdates) : Task :=
  { id := original.id
    title := updates.title.getD original.title
    startMinutes := updates.startMinutes.getD original.startMinutes
    endMinutes := updates.endMinutes.getD original.endMinutes
    priority := updates.priority.getD original.priority
    description :=
      match updates.description with
      | some d => some d
      | none => original.description
    completed := original.completed
    createdAt := original.createdAt }

/-- The candidate `editTask` would build for a given state, id and update
set (`none` when the id is not present). -/
def editCandidate (tasks : List Task) (id : String) (updates : TaskUpdates) :
    Option Task :=
  match tasks.findIdx? (fun t => t.id == id) with
  | none => none
  | some idx => some (mkCandidate (tasks.getD idx default) updates)

/-- Conflict message built by `editTask` for a conflicting neighbor. -/
def editConflictMsg (nb : Task) : String :=
  "Edit conflicts with existing task \"" ++ nb.title ++ "\"."

/-- Broadcast message for a successful `editTask`. -/
def editedMsg (t : Task) : String :=
  "Task edited: " ++ t.title

/-- `ScheduleManager.editTask`: build the candidate, remove the original,
re-run the binary search and neighbor check on the reduced array, and
either fail (state untouched, no save, conflict broadcast) or commit. -/
def editTask (tasks : List Task) (id : String) (updates : TaskUpdates) : OpOutput :=
  match tasks.findIdx? (fun t => t.id == id) with
  | none =>
    { success := false, message := "Task not found.", tasks := tasks,
      notes := [], saves := [] }
  | some idx =>
    let original := tasks.getD idx default
    let updated := mkCandidate original updates
    let arr := tasks.eraseIdx idx
    let insertIdx := editInsertIdx arr updated.startMinutes
    match findConflict arr insertIdx updated.startMinutes updated.endMinutes with
    | some nb =>
      let msg := editConflictMsg nb
      { success := false, message := msg, tasks := tasks, notes := [msg], saves := [] }
    | none =>
      let newTasks := arr.insertIdx insertIdx updated
      { success := true, message := "Task edited successfully.", tasks := newTasks,
        notes := [editedMsg updated], saves := [newTasks] }

/-- Broadcast message for a successful `markCompleted`. -/
def completedMsg (t : Task) : String :=
  "Task completed: " ++ t.title

/-- `ScheduleManager.markCompleted`: find the first task with the id and
set its `completed` flag in place. -/
def markCompleted (tasks : List Task) (id : String) : OpOutput :=
  match tasks.findIdx? (fun t => t.id == id) with
  | none =>
    { success := false, message := "Task not found.", tasks := tasks,
      notes := [], saves := [] }
  | some idx =>
    let t := tasks.getD idx default
    let t2 := { t with completed := true }
    let newTasks := tasks.set idx t2
    { success := true, message := "Task marked as completed.", tasks := newTasks,
      notes := [completedMsg t2], saves := [newTasks] }

/-- `ScheduleManager.load`: accept whatever the store returned, re-sorted
ascending by `startMinutes` (a stable sort, like the JavaScript `sort`
call; no overlap check is performed). -/
def load (persisted : List Task) : List Task :=
  List.insertionSort (fun a b => a.startMinutes ≤ b.startMinutes) persisted

end ScheduleManager

namespace TaskFactory

/-- Digit value of an ASCII digit character, as `parseInt` sees it. -/
def digitVal (c : Char) : Nat := c.toNat - 48

/-- Validation tail of `parseTimeToMinutes`: bounds check and conversion to
minutes since midnight. -/
def checkHM (h m : Nat) : Except String Nat :=
  if h > 23 || m > 59 then
    Except.error "Invalid time. Hours must be 0-23 and minutes 0-59."
  else Except.ok (h * 60 + m)

/-- Embedding of `parseTimeToMinutes` from `timeUtils`: the regex
`^\d{1,2}:\d{2}$` admits exactly the two character shapes matched below,
then hours and minutes are parsed and bounds-checked. -/
def parseTimeToMinutes (time : String) : Except String Nat :=
  match time.data with
  | [h1, c, m1, m2] =>
    if h1.isDigit && (c == ':') && m1.isDigit && m2.isDigit then
      checkHM (digitVal h1) (10 * digitVal m1 + digitVal m2)
    else Except.error "Invalid time format. Expected HH:mm"
  | [h1, h2, c, m1, m2] =>
    if h1.isDigit && h2.isDigit && (c == ':') && m1.isDigit && m2.isDigit then
      checkHM (10 * digitVal h1 + digitVal h2) (10 * digitVal m1 + digitVal m2)
    else Except.error "Invalid time format. Expected HH:mm"
  | _ => Except.error "Invalid time format. Expected HH:mm"

/-- `TaskFactory.parsePriority`: case-insensitive normalization to one of
`Low`, `Medium`, `High`. -/
def parsePriority (s : String) : Except String String :=
  let normalized := jsToLower (jsTrim s)
  if normalized = "high" then Except.ok "High"
  else if normalized = "medium" then Except.ok "Medium"
  else if normalized = "low" then Except.ok "Low"
  else Except.error "Priority must be Low, Medium or High."

/-- `TaskFactory.create`: parse and validate the time strings, require
`end > start`, normalize the priority, and build the task.  The generated
id (`Date.now()` plus a random suffix) and the creation timestamp are
environment inputs, passed explicitly. -/
def create (genId : String) (now : Nat) (title startHHMM endHHMM priority : String)
    (description : Option String) : Except String Task := do
  let start ← parseTimeToMinutes startHHMM
  let e ← parseTimeToMinutes endHHMM
  if e ≤ start then throw "End time must be after start time."
  let p ← parsePriority priority
  pure { id := genId, title := jsTrim title, startMinutes := start, endMinutes := e,
         priority := p, description := description.map jsTrim, completed := false,
         createdAt := now }

end TaskFactory

open ScheduleManager

/-- One mutating call of the invariant claim: `addTask`, `editTask` or
`removeTaskById`. -/
inductive Op where
  | add (t : Task)
  | edit (id : String) (u : TaskUpdates)
  | remove (id : String)
deriving Repr, DecidableEq

/-- Apply one operation to a state. -/
def applyOp (tasks : List Task) : Op → OpOutput
  | Op.add t => addTask tasks t
  | Op.edit id u => editTask tasks id u
  | Op.remove id => removeTaskById tasks id

/-- Run a sequence of operations (a failed call leaves the state
unchanged, so this covers every call sequence). -/
def runOps (tasks : List Task) : List Op → List Task
  | [] => tasks
  | op :: ops => runOps (applyOp tasks op).tasks ops

/-- Boolean well-formedness of a task's duration: `end > start`. -/
def WFb (t : Task) : Bool :=
  decide (t.startMinutes < t.endMinutes)

/-- Duration discipline of one operation: an added task is well-formed,
and the candidate an edit would build is well-formed. -/
def opOk (tasks : List Task) : Op → Bool
  | Op.add t => WFb t
  | Op.edit id u => (editCandidate tasks id u).all WFb
  | Op.remove _ => true

/-- Duration discipline along a whole run. -/
def opsOk (tasks : List Task) : List Op → Bool
  | [] => true
  | op :: ops => opOk tasks op && opsOk (applyOp tasks op).tasks ops

/-- Well-formed duration, as a proposition. -/
def WF (t : Task) : Prop :=
  t.startMinutes < t.endMinutes

instance (t : Task) : Decidable (WF t) :=
  inferInstanceAs (Decidable (t.startMinutes < t.endMinutes))

/-- The schedule is sorted ascending by `startMinutes`. -/
def SortedByStart (l : List Task) : Prop :=
  l.Pairwise (fun a b => a.startMinutes ≤ b.startMinutes)

instance (l : List Task) : Decidable (SortedByStart l) :=
  inferInstanceAs (Decidable (l.Pairwise _))

/-- Every earlier task ends no later than every later task starts. -/
def NonOverlapping (l : List Task) : Prop :=
  l.Pairwise (fun a b => a.endMinutes ≤ b.startMinutes)

instance (l : List Task) : Decidable (NonOverlapping l) :=
  inferInstanceAs (Decidable (l.Pairwise _))

/-- The adjacent-pair property of the spec: for every adjacent pair
`(A, B)` in the stored order, `A.endMinutes ≤ B.startMinutes`. -/
def ChainedByEnd (l : List Task) : Prop :=
  l.Chain' (fun a b => a.endMinutes ≤ b.startMinutes)

/-- Executable check of the adjacent-pair property. -/
def chainedByEndB : List Task → Bool
  | [] => true
  | [_] => true
  | a :: b :: rest => decide (a.endMinutes ≤ b.startMinutes) && chainedByEndB (b :: rest)

theorem chainedByEndB_iff : ∀ l, chainedByEndB l = true ↔ ChainedByEnd l
  | [] => by simp [chainedByEndB, ChainedByEnd]
  | [a] => by simp [chainedByEndB, ChainedByEnd]
  | a :: b :: rest => by
    have ih := chainedByEndB_iff (b :: rest)
    simp only [chainedByEndB, ChainedByEnd, List.chain'_cons, Bool.and_eq_true,
      decide_eq_true_eq] at ih ⊢
    rw [ih]

instance (l : List Task) : Decidable (ChainedByEnd l) :=
  decidable_of_iff (chainedByEndB l = true) (chainedByEndB_iff l)

/-- The schedule invariant: pairwise non-overlap plus well-formed
durations. -/
def Inv (l : List Task) : Prop :=
  NonOverlapping l ∧ ∀ t ∈ l, WF t

/-! ## Helper lemmas -/

theorem getD_eq (l : List Task) (n : Nat) (h : n < l.length) :
    l.getD n default = l[n] := by
  simp [List.getD_eq_getElem?_getD, List.getElem?_eq_getElem h]

theorem editInsertIdxAux_eq (arr : List Task) (target : Nat) :
    ∀ fuel low high,
      editInsertIdxAux arr target fuel low high =
        findInsertIndexAux arr target fuel low high := by
  intro fuel
  induction fuel with
  | zero => intro low high; rfl
  | succ fuel ih =>
    intro low high
    simp only [editInsertIdxAux, findInsertIndexAux, ih]

theorem editInsertIdx_eq (arr : List Task) (s : Nat) :
    editInsertIdx arr s = findInsertIndex arr s :=
  editInsertIdxAux_eq arr s arr.length 0 arr.length

theorem findInsertIndexAux_spec (tasks : List Task) (target : Nat)
    (hmono : ∀ i j, i ≤ j → j < tasks.length →
      (tasks.getD i default).startMinutes ≤ (tasks.getD j default).startMinutes) :
    ∀ fuel low high, high - low ≤ fuel → low ≤ high → high ≤ tasks.length →
      (∀ j, j < low → (tasks.getD j default).startMinutes < target) →
      (∀ j, high ≤ j → j < tasks.length →
        target ≤ (tasks.getD j default).startMinutes) →
      low ≤ findInsertIndexAux tasks target fuel low high ∧
      findInsertIndexAux tasks target fuel low high ≤ high ∧
      (∀ j, j < findInsertIndexAux tasks target fuel low high →
        (tasks.getD j default).startMinutes < target) ∧
      (∀ j, findInsertIndexAux tasks target fuel low high ≤ j → j < tasks.length →
        target ≤ (tasks.getD j default).startMinutes) := by
  intro fuel
  induction fuel with
  | zero =>
    intro low high hfuel hlh _ hlow hhigh
    have heq : low = high := by omega
    subst heq
    exact ⟨Nat.le_refl _, Nat.le_refl _, hlow, hhigh⟩
  | succ fuel ih =>
    intro low high hfuel hlh hhi hlow hhigh
    simp only [findInsertIndexAux]
    by_cases hlh2 : low < high
    · rw [if_pos hlh2]
      have hmidlo : low ≤ (low + high) / 2 := by omega
      have hmidhi : (low + high) / 2 < high := by omega
      have hmidlen : (low + high) / 2 < tasks.length := by omega
      by_cases hc : (tasks.getD ((low + high) / 2) default).startMinutes < target
      · rw [if_pos hc]
        refine ih ((low + high) / 2 + 1) high (by omega) (by omega) hhi ?_ hhigh |>.imp
          (fun h => by omega) (fun h => h)
        intro j hj
        exact Nat.lt_of_le_of_lt (hmono j ((low + high) / 2) (by omega) hmidlen) hc
      · rw [if_neg hc]
        refine ih low ((low + high) / 2) (by omega) (by omega) (by omega) hlow ?_ |>.imp
          (fun h => h) (fun h => h.imp (fun h2 => by omega) (fun h2 => h2))
        intro j hj hjlen
        exact Nat.le_trans (Nat.not_lt.mp hc) (hmono ((low + high) / 2) j hj hjlen)
    · rw [if_neg hlh2]
      have heq : low = high := by omega
      exact ⟨Nat.le_refl _, by omega, hlow, fun j hj hjl => hhigh j (heq ▸ hj) hjl⟩

theorem findInsertIndex_lowerBound (l : List Task) (target : Nat)
    (hmono : ∀ i j, i ≤ j → j < l.length →
      (l.getD i default).startMinutes ≤ (l.getD j default).startMinutes) :
    findInsertIndex l target ≤ l.length ∧
    (∀ j, j < findInsertIndex l target →
      (l.getD j default).startMinutes < target) ∧
    (∀ j, findInsertIndex l target ≤ j → j < l.length →
      target ≤ (l.getD j default).startMinutes) := by
  have h := findInsertIndexAux_spec l target hmono l.length 0 l.length
    (by omega) (by omega) (Nat.le_refl _)
    (fun j hj => absurd hj (Nat.not_lt_zero j))
    (fun j hj hjl => absurd hjl (Nat.not_lt.mpr hj))
  exact ⟨h.2.1, h.2.2.1, h.2.2.2⟩

theorem SortedByStart.getD_mono {l : List Task} (h : SortedByStart l) :
    ∀ i j, i ≤ j → j < l.length →
      (l.getD i default).startMinutes ≤ (l.getD j default).startMinutes := by
  intro i j hij hj
  rcases Nat.lt_or_ge i j with hlt | hge
  · rw [getD_eq l i (by omega), getD_eq l j hj]
    exact List.pairwise_iff_getElem.mp h i j (by omega) hj hlt
  · have heq : i = j := by omega
    subst heq
    exact Nat.le_refl _

/-- Inserting an element at a position that respects `R` against everything
before and after preserves pairwise `R`. -/
theorem pairwise_insertIdx {α : Type} {R : α → α → Prop} {l : List α} {c : α}
    {idx : Nat} (hidx : idx ≤ l.length) (hpw : l.Pairwise R)
    (hA : ∀ i (hi : i < l.length), i < idx → R l[i] c)
    (hB : ∀ j (hj : j < l.length), idx ≤ j → R c l[j]) :
    (l.insertIdx idx c).Pairwise R := by
  rw [List.pairwise_iff_getElem] at hpw ⊢
  have hlen : (l.insertIdx idx c).length = l.length + 1 :=
    List.length_insertIdx idx l hidx
  intro i j hi hj hij
  rw [hlen] at hi hj
  by_cases hjidx : j < idx
  · rw [List.getElem_insertIdx_of_lt l c idx i (by omega) (by omega),
      List.getElem_insertIdx_of_lt l c idx j (by omega) (by omega)]
    exact hpw i j (by omega) (by omega) hij
  · by_cases hjeq : j = idx
    · subst hjeq
      rw [List.getElem_insertIdx_self l c j (by omega),
        List.getElem_insertIdx_of_lt l c j i (by omega) (by omega)]
      exact hA i (by omega) (by omega)
    · obtain ⟨k, rfl⟩ : ∃ k, j = idx + k + 1 := ⟨j - idx - 1, by omega⟩
      rw [List.getElem_insertIdx_add_succ l c idx k (by omega)]
      by_cases hiidx : i < idx
      · rw [List.getElem_insertIdx_of_lt l c idx i (by omega) (by omega)]
        exact hpw i (idx + k) (by omega) (by omega) (by omega)
      · by_cases hieq : i = idx
        · subst hieq
          rw [List.getElem_insertIdx_self l c i (by omega)]
          exact hB (i + k) (by omega) (by omega)
        · obtain ⟨k2, rfl⟩ : ∃ k2, i = idx + k2 + 1 := ⟨i - idx - 1, by omega⟩
          rw [List.getElem_insertIdx_add_succ l c idx k2 (by omega)]
          exact hpw (idx + k2) (idx + k) (by omega) (by omega) (by omega)

/-- The invariant implies sortedness by `startMinutes`. -/
theorem Inv.sorted {l : List Task} (h : Inv l) : SortedByStart l :=
  h.1.imp_of_mem fun ha _ hR =>
    Nat.le_of_lt (Nat.lt_of_lt_of_le (h.2 _ ha) hR)

/-- Inserting at the binary-search index preserves sortedness, for any
candidate. -/
theorem sortedByStart_insertIdx (l : List Task) (c : Task) (hs : SortedByStart l) :
    SortedByStart (l.insertIdx (findInsertIndex l c.startMinutes) c) := by
  have hspec := findInsertIndex_lowerBound l c.startMinutes hs.getD_mono
  refine pairwise_insertIdx hspec.1 hs ?_ ?_
  · intro i hi hilt
    have h2 := hspec.2.1 i hilt
    rw [getD_eq l i hi] at h2
    exact Nat.le_of_lt h2
  · intro j hj hge
    have h2 := hspec.2.2 j hge hj
    rwa [getD_eq l j hj] at h2

/-- The heart of the neighbor-only check: if the candidate is well-formed,
the schedule satisfies the invariant, and neither immediate neighbor at the
binary-search index overlaps the candidate, then inserting there preserves
the invariant. -/
theorem inv_insertIdx (l : List Task) (c : Task) (hinv : Inv l) (hwf : WF c)
    (hprev : prevConflict l (findInsertIndex l c.startMinutes)
      c.startMinutes c.endMinutes = none)
    (hnext : nextConflict l (findInsertIndex l c.startMinutes)
      c.startMinutes c.endMinutes = none) :
    Inv (l.insertIdx (findInsertIndex l c.startMinutes) c) := by
  obtain ⟨hno, hwfall⟩ := hinv
  have hspec := findInsertIndex_lowerBound l c.startMinutes
    (Inv.sorted ⟨hno, hwfall⟩).getD_mono
  constructor
  · refine pairwise_insertIdx hspec.1 hno ?_ ?_
    · intro i hi hilt
      have hidx1 : 1 ≤ findInsertIndex l c.startMinutes := by omega
      have hplen : findInsertIndex l c.startMinutes - 1 < l.length := by omega
      rw [prevConflict, if_pos hidx1] at hprev
      simp only [getD_eq l _ hplen] at hprev
      by_cases hov : overlaps l[findInsertIndex l c.startMinutes - 1].startMinutes
          l[findInsertIndex l c.startMinutes - 1].endMinutes c.startMinutes c.endMinutes
      · rw [if_pos hov] at hprev
        exact absurd hprev (by simp)
      · have hovprop := hov
        simp only [overlaps, Bool.and_eq_true, decide_eq_true_eq, not_and,
          Bool.not_eq_true, decide_eq_false_iff_not, Nat.not_lt] at hovprop
        have hprevstart :
            l[findInsertIndex l c.startMinutes - 1].startMinutes < c.startMinutes := by
          have h2 := hspec.2.1 (findInsertIndex l c.startMinutes - 1) (by omega)
          rwa [getD_eq l _ hplen] at h2
        have hwf2 : c.startMinutes < c.endMinutes := hwf
        have hprevend :
            l[findInsertIndex l c.startMinutes - 1].endMinutes ≤ c.startMinutes := by
          rcases Nat.lt_or_ge l[findInsertIndex l c.startMinutes - 1].startMinutes
              c.endMinutes with hlt | hge
          · exact hovprop hlt
          · omega
        rcases Nat.lt_or_ge i (findInsertIndex l c.startMinutes - 1) with hi2 | hi2
        · have hpw := List.pairwise_iff_getElem.mp hno i
            (findInsertIndex l c.startMinutes - 1) (by omega) hplen hi2
          omega
        · have heq : i = findInsertIndex l c.startMinutes - 1 := by omega
          subst heq
          exact hprevend
    · intro j hj hge
      have hnlen : findInsertIndex l c.startMinutes < l.length := by omega
      rw [nextConflict, if_pos hnlen] at hnext
      simp only [getD_eq l _ hnlen] at hnext
      by_cases hov : overlaps l[findInsertIndex l c.startMinutes].startMinutes
          l[findInsertIndex l c.startMinutes].endMinutes c.startMinutes c.endMinutes
      · rw [if_pos hov] at hnext
        exact absurd hnext (by simp)
      · have hovprop := hov
        simp only [overlaps, Bool.and_eq_true, decide_eq_true_eq, not_and,
          Bool.not_eq_true, decide_eq_false_iff_not, Nat.not_lt] at hovprop
        have hnstart : c.startMinutes ≤
            l[findInsertIndex l c.startMinutes].startMinutes := by
          have h2 := hspec.2.2 (findInsertIndex l c.startMinutes) (Nat.le_refl _) hnlen
          rwa [getD_eq l _ hnlen] at h2
        have hnwf : l[findInsertIndex l c.startMinutes].startMinutes <
            l[findInsertIndex l c.startMinutes].endMinutes :=
          hwfall _ (List.getElem_mem hnlen)
        have hnend : c.endMinutes ≤
            l[findInsertIndex l c.startMinutes].startMinutes := by
          rcases Nat.lt_or_ge l[findInsertIndex l c.startMinutes].startMinutes
              c.endMinutes with hlt | hge2
          · have := hovprop hlt
            omega
          · exact hge2
        rcases Nat.lt_or_ge (findInsertIndex l c.startMinutes) j with hj2 | hj2
        · have hpw := List.pairwise_iff_getElem.mp hno
            (findInsertIndex l c.startMinutes) j hnlen hj hj2
          omega
        · have heq : j = findInsertIndex l c.startMinutes := by omega
          subst heq
          exact hnend
  · intro t ht
    rw [List.mem_insertIdx hspec.1] at ht
    rcases ht with rfl | ht
    · exact hwf
    · exact hwfall t ht

theorem findConflict_eq_none {arr : List Task} {idx s e : Nat} :
    findConflict arr idx s e = none ↔
      prevConflict arr idx s e = none ∧ nextConflict arr idx s e = none := by
  unfold findConflict
  cases hp : prevConflict arr idx s e <;> simp [hp]

theorem inv_eraseIdx {l : List Task} (h : Inv l) (i : Nat) :
    Inv (l.eraseIdx i) :=
  ⟨List.Pairwise.sublist (List.eraseIdx_sublist l i) h.1,
    fun t ht => h.2 t ((List.eraseIdx_sublist l i).subset ht)⟩

theorem sortedByStart_eraseIdx {l : List Task} (h : SortedByStart l) (i : Nat) :
    SortedByStart (l.eraseIdx i) :=
  List.Pairwise.sublist (List.eraseIdx_sublist l i) h

/-- `addTask` preserves the invariant (on failure the state is untouched,
on success the insertion lemma applies). -/
theorem addTask_inv (l : List Task) (t : Task) (hinv : Inv l) (hwf : WF t) :
    Inv (addTask l t).tasks := by
  cases hc : findConflict l (findInsertIndex l t.startMinutes)
      t.startMinutes t.endMinutes with
  | some nb =>
    simp only [addTask, hc]
    exact hinv
  | none =>
    simp only [addTask, hc]
    have h2 := findConflict_eq_none.mp hc
    exact inv_insertIdx l t hinv hwf h2.1 h2.2

/-- `addTask` preserves sortedness, for any argument. -/
theorem addTask_sorted (l : List Task) (t : Task) (hs : SortedByStart l) :
    SortedByStart (addTask l t).tasks := by
  cases hc : findConflict l (findInsertIndex l t.startMinutes)
      t.startMinutes t.endMinutes with
  | some nb =>
    simp only [addTask, hc]
    exact hs
  | none =>
    simp only [addTask, hc]
    exact sortedByStart_insertIdx l t hs

/-- `removeTaskById` preserves the invariant. -/
theorem removeTaskById_inv (l : List Task) (id : String) (hinv : Inv l) :
    Inv (removeTaskById l id).tasks := by
  cases hidx : l.findIdx? (fun t => t.id == id) with
  | none =>
    simp only [removeTaskById, hidx]
    exact hinv
  | some idx =>
    simp only [removeTaskById, hidx]
    exact inv_eraseIdx hinv idx

/-- `removeTaskById` preserves sortedness. -/
theorem removeTaskById_sorted (l : List Task) (id : String)
    (hs : SortedByStart l) : SortedByStart (removeTaskById l id).tasks := by
  cases hidx : l.findIdx? (fun t => t.id == id) with
  | none =>
    simp only [removeTaskById, hidx]
    exact hs
  | some idx =>
    simp only [removeTaskById, hidx]
    exact sortedByStart_eraseIdx hs idx

/-- `editTask` preserves the invariant, provided the candidate it builds is
well-formed. -/
theorem editTask_inv (l : List Task) (id : String) (u : TaskUpdates)
    (hinv : Inv l)
    (hcand : ∀ c, editCandidate l id u = some c → WF c) :
    Inv (editTask l id u).tasks := by
  cases hidx : l.findIdx? (fun t => t.id == id) with
  | none =>
    simp only [editTask, hidx]
    exact hinv
  | some idx =>
    have hwfc : WF (mkCandidate (l.getD idx default) u) :=
      hcand _ (by simp [editCandidate, hidx])
    have harr : Inv (l.eraseIdx idx) := inv_eraseIdx hinv idx
    cases hc : findConflict (l.eraseIdx idx)
        (editInsertIdx (l.eraseIdx idx) (mkCandidate (l.getD idx default) u).startMinutes)
        (mkCandidate (l.getD idx default) u).startMinutes
        (mkCandidate (l.getD idx default) u).endMinutes with
    | some nb =>
      simp only [editTask, hidx, hc]
      exact hinv
    | none =>
      simp only [editTask, hidx, hc]
      rw [editInsertIdx_eq] at hc ⊢
      have h2 := findConflict_eq_none.mp hc
      exact inv_insertIdx (l.eraseIdx idx) (mkCandidate (l.getD idx default) u)
        harr hwfc h2.1 h2.2

/-- `editTask` preserves sortedness, for any update set. -/
theorem editTask_sorted (l : List Task) (id : String) (u : TaskUpdates)
    (hs : SortedByStart l) : SortedByStart (editTask l id u).tasks := by
  cases hidx : l.findIdx? (fun t => t.id == id) with
  | none =>
    simp only [editTask, hidx]
    exact hs
  | some idx =>
    have harr : SortedByStart (l.eraseIdx idx) := sortedByStart_eraseIdx hs idx
    cases hc : findConflict (l.eraseIdx idx)
        (editInsertIdx (l.eraseIdx idx) (mkCandidate (l.getD idx default) u).startMinutes)
        (mkCandidate (l.getD idx default) u).startMinutes
        (mkCandidate (l.getD idx default) u).endMinutes with
    | some nb =>
      simp only [editTask, hidx, hc]
      exact hs
    | none =>
      simp only [editTask, hidx, hc]
      rw [editInsertIdx_eq]
      exact sortedByStart_insertIdx (l.eraseIdx idx)
        (mkCandidate (l.getD idx default) u) harr

/-- One step of a run preserves the invariant under the duration
discipline. -/
theorem applyOp_inv (l : List Task) (op : Op) (hinv : Inv l)
    (hok : opOk l op = true) : Inv (applyOp l op).tasks := by
  cases op with
  | add t =>
    refine addTask_inv l t hinv ?_
    simpa [opOk, WFb, WF] using hok
  | edit id u =>
    refine editTask_inv l id u hinv ?_
    intro c hc
    rw [opOk, hc, Option.all_some] at hok
    simpa [WFb, WF] using hok
  | remove id => exact removeTaskById_inv l id hinv

/-- One step of a run preserves sortedness, unconditionally. -/
theorem applyOp_sorted (l : List Task) (op : Op) (hs : SortedByStart l) :
    SortedByStart (applyOp l op).tasks := by
  cases op with
  | add t => exact addTask_sorted l t hs
  | edit id u => exact editTask_sorted l id u hs
  | remove id => exact removeTaskById_sorted l id hs

/-- A whole run preserves the invariant under the duration discipline. -/
theorem runOps_inv : ∀ (ops : List Op) (l : List Task), Inv l →
    opsOk l ops = true → Inv (runOps l ops)
  | [], _, h, _ => h
  | op :: ops, l, h, hok => by
    rw [opsOk, Bool.and_eq_true] at hok
    exact runOps_inv ops _ (applyOp_inv l op h hok.1) hok.2

/-- Replacing one element by another with the same `startMinutes` preserves
sortedness. -/
theorem sortedByStart_set (l : List Task) (idx : Nat) (t2 : Task)
    (h : idx < l.length) (hstart : t2.startMinutes = l[idx].startMinutes)
    (hs : SortedByStart l) : SortedByStart (l.set idx t2) := by
  have hs2 := List.pairwise_iff_getElem.mp hs
  refine List.pairwise_iff_getElem.mpr ?_
  intro i j hi hj hij
  rw [List.length_set] at hi hj
  rw [List.getElem_set, List.getElem_set]
  by_cases hii : idx = i <;> by_cases hjj : idx = j
  · omega
  · rw [if_pos hii, if_neg hjj, hstart]
    exact hs2 idx j (by omega) hj (by omega)
  · rw [if_neg hii, if_pos hjj, hstart]
    exact hs2 i idx hi (by omega) (by omega)
  · rw [if_neg hii, if_neg hjj]
    exact hs2 i j hi hj hij

/-- `markCompleted` preserves sortedness: only the `completed` flag of one
task changes. -/
theorem markCompleted_sorted (l : List Task) (id : String)
    (hs : SortedByStart l) : SortedByStart (markCompleted l id).tasks := by
  cases hidx : l.findIdx? (fun t => t.id == id) with
  | none =>
    simp only [markCompleted, hidx]
    exact hs
  | some idx =>
    simp only [markCompleted, hidx]
    obtain ⟨hlen, -, -⟩ := List.findIdx?_eq_some_iff_getElem.mp hidx
    refine sortedByStart_set l idx _ hlen ?_ hs
    rw [getD_eq l idx hlen]

instance : IsTotal Task (fun a b => a.startMinutes ≤ b.startMinutes) :=
  ⟨fun _ _ => Nat.le_total _ _⟩

instance : IsTrans Task (fun a b => a.startMinutes ≤ b.startMinutes) :=
  ⟨fun _ _ _ => Nat.le_trans⟩

/-- The defensive re-sort of `load` yields a sorted list. -/
theorem load_sorted (p : List Task) : SortedByStart (load p) :=
  List.sorted_insertionSort _ p

theorem jsToLower_eq_empty (s : String) : jsToLower s = "" ↔ s = "" := by
  obtain ⟨d⟩ := s
  constructor
  · intro hh
    have h2 : d.map jsCharLower = [] := congrArg String.data hh
    have h3 : d = [] := List.map_eq_nil_iff.mp h2
    rw [h3]
  · intro hh
    have h3 : d = [] := congrArg String.data hh
    show jsToLower ⟨d⟩ = ""
    rw [h3]
    rfl

theorem listTasksByPriority_eq (l : List Task) (p : String) :
    listTasksByPriority l p =
      if jsToLower (jsTrim p) = "" then []
      else l.filter fun t => jsToLower t.priority == jsToLower (jsTrim p) := rfl

/-! ## Concrete data for witnesses and counterexamples -/

def taskA100 : Task :=
  { id := "a", title := "A", startMinutes := 100, endMinutes := 200, priority := "Medium" }

def taskB300 : Task :=
  { id := "b", title := "B", startMinutes := 300, endMinutes := 400, priority := "Low" }

def updBad : TaskUpdates :=
  { startMinutes := some 150, endMinutes := some 50 }

def taskA540 : Task :=
  { id := "a", title := "A", startMinutes := 540, endMinutes := 600, priority := "Medium" }

def taskC660 : Task :=
  { id := "c", title := "C", startMinutes := 660, endMinutes := 720, priority := "Low" }

def updA : TaskUpdates :=
  { startMinutes := some 600, endMinutes := some 660 }

def standup : Task :=
  { id := "s1", title := "Standup", startMinutes := 540, endMinutes := 600, priority := "High" }

def overlapTask : Task :=
  { id := "s2", title := "Overlap", startMinutes := 570, endMinutes := 630, priority := "Low" }

def updOnlyStart : TaskUpdates :=
  { startMinutes := some 650 }

def taskP1 : Task :=
  { id := "p1", title := "P1", startMinutes := 0, endMinutes := 100, priority := "Low" }

def taskP2 : Task :=
  { id := "p2", title := "P2", startMinutes := 50, endMinutes := 150, priority := "Low" }

/-! ## Claims -/

/-- C1 (amended): for every sequence of `addTask`/`editTask`/`removeTaskById`
calls starting from the empty schedule, if every task handed to `addTask` has
`endMinutes > startMinutes` AND every candidate built by `editTask` (original
fields overridden by the updates) has `endMinutes > startMinutes`, then the
resulting collection satisfies `A.endMinutes ≤ B.startMinutes` for every
adjacent pair `(A, B)` in stored (sorted) order, even though each mutation
checks only the two immediate neighbors at the computed insertion index.
The extra condition on edit candidates is forced by the counterexample
`schedule_no_overlap_cex`. -/
theorem schedule_no_overlap_invariant (ops : List Op) (h : opsOk [] ops = true) :
    ChainedByEnd (runOps [] ops) :=
  (runOps_inv ops [] ⟨List.Pairwise.nil, fun t ht => absurd ht (List.not_mem_nil t)⟩ h).1.chain'

theorem schedule_no_overlap_invariant_witness :
    opsOk [] [Op.add taskA540, Op.add taskC660, Op.edit "a" updA, Op.remove "c"] = true ∧
    ChainedByEnd (runOps []
      [Op.add taskA540, Op.add taskC660, Op.edit "a" updA, Op.remove "c"]) :=
  ⟨by decide, schedule_no_overlap_invariant _ (by decide)⟩

/-- C1 counterexample: the claim as frozen constrains only the tasks handed
to `addTask`.  Starting from empty, two well-formed adds succeed, and then a
successful `editTask` whose update set makes `endMinutes ≤ startMinutes`
(candidate `[150, 50)`) leaves the collection `[A(100,200), B(150,50)]`,
violating the adjacent-pair property. -/
theorem schedule_no_overlap_cex :
    WF taskA100 ∧ WF taskB300 ∧
    (addTask [] taskA100).success = true ∧
    (addTask (addTask [] taskA100).tasks taskB300).success = true ∧
    (editTask (addTask (addTask [] taskA100).tasks taskB300).tasks "b" updBad).success
      = true ∧
    ¬ ChainedByEnd (runOps [] [Op.add taskA100, Op.add taskB300, Op.edit "b" updBad]) := by
  refine ⟨by decide, by decide, by decide, by decide, by decide, by decide⟩

/-- C2: when the id is present at index `idx`, `editTask` builds the
candidate `mkCandidate` preserving `id`, `completed` and `createdAt` with
omitted fields keeping their current values, and succeeds exactly when
neither neighbor at the binary-search position in the collection with the
original removed conflicts; on failure the stored collection and
persistence are untouched, and on success the new collection is the old one
minus the original plus the candidate at its sorted position. -/
theorem editTask_spec (l : List Task) (id : String) (u : TaskUpdates) (idx : Nat)
    (h : l.findIdx? (fun t => t.id == id) = some idx) :
    ((editTask l id u).success = true ↔
      prevConflict (l.eraseIdx idx)
        (findInsertIndex (l.eraseIdx idx) (mkCandidate (l.getD idx default) u).startMinutes)
        (mkCandidate (l.getD idx default) u).startMinutes
        (mkCandidate (l.getD idx default) u).endMinutes = none ∧
      nextConflict (l.eraseIdx idx)
        (findInsertIndex (l.eraseIdx idx) (mkCandidate (l.getD idx default) u).startMinutes)
        (mkCandidate (l.getD idx default) u).startMinutes
        (mkCandidate (l.getD idx default) u).endMinutes = none) ∧
    editCandidate l id u = some (mkCandidate (l.getD idx default) u) ∧
    (mkCandidate (l.getD idx default) u).id = (l.getD idx default).id ∧
    (mkCandidate (l.getD idx default) u).completed = (l.getD idx default).completed ∧
    (mkCandidate (l.getD idx default) u).createdAt = (l.getD idx default).createdAt ∧
    (u.title = none →
      (mkCandidate (l.getD idx default) u).title = (l.getD idx default).title) ∧
    (u.startMinutes = none →
      (mkCandidate (l.getD idx default) u).startMinutes = (l.getD idx default).startMinutes) ∧
    (u.endMinutes = none →
      (mkCandidate (l.getD idx default) u).endMinutes = (l.getD idx default).endMinutes) ∧
    (u.priority = none →
      (mkCandidate (l.getD idx default) u).priority = (l.getD idx default).priority) ∧
    (u.description = none →
      (mkCandidate (l.getD idx default) u).description = (l.getD idx default).description) ∧
    ((editTask l id u).success = false →
      (editTask l id u).tasks = l ∧ (editTask l id u).saves = []) ∧
    ((editTask l id u).success = true →
      (editTask l id u).tasks = (l.eraseIdx idx).insertIdx
        (findInsertIndex (l.eraseIdx idx) (mkCandidate (l.getD idx default) u).startMinutes)
        (mkCandidate (l.getD idx default) u) ∧
      (editTask l id u).saves = [(editTask l id u).tasks]) := by
  have hcand : editCandidate l id u = some (mkCandidate (l.getD idx default) u) := by
    simp [editCandidate, h]
  have hiff : (editTask l id u).success = true ↔
      (prevConflict (l.eraseIdx idx)
        (findInsertIndex (l.eraseIdx idx) (mkCandidate (l.getD idx default) u).startMinutes)
        (mkCandidate (l.getD idx default) u).startMinutes
        (mkCandidate (l.getD idx default) u).endMinutes = none ∧
      nextConflict (l.eraseIdx idx)
        (findInsertIndex (l.eraseIdx idx) (mkCandidate (l.getD idx default) u).startMinutes)
        (mkCandidate (l.getD idx default) u).startMinutes
        (mkCandidate (l.getD idx default) u).endMinutes = none) := by
    rw [← findConflict_eq_none, ← editInsertIdx_eq]
    cases hc : findConflict (l.eraseIdx idx)
        (editInsertIdx (l.eraseIdx idx) (mkCandidate (l.getD idx default) u).startMinutes)
        (mkCandidate (l.getD idx default) u).startMinutes
        (mkCandidate (l.getD idx default) u).endMinutes with
    | some nb =>
      simp only [editTask, h, hc]
      simp
    | none =>
      simp only [editTask, h, hc]
  refine ⟨hiff, hcand, rfl, rfl, rfl, ?_, ?_, ?_, ?_, ?_, ?_, ?_⟩
  · intro h0; simp [mkCandidate, h0]
  · intro h0; simp [mkCandidate, h0]
  · intro h0; simp [mkCandidate, h0]
  · intro h0; simp [mkCandidate, h0]
  · intro h0; simp [mkCandidate, h0]
  · intro h0
    cases hc : findConflict (l.eraseIdx idx)
        (editInsertIdx (l.eraseIdx idx) (mkCandidate (l.getD idx default) u).startMinutes)
        (mkCandidate (l.getD idx default) u).startMinutes
        (mkCandidate (l.getD idx default) u).endMinutes with
    | some nb =>
      simp only [editTask, h, hc]
      constructor <;> trivial
    | none =>
      simp only [editTask, h, hc] at h0
      exact absurd h0 (by simp)
  · intro h0
    cases hc : findConflict (l.eraseIdx idx)
        (editInsertIdx (l.eraseIdx idx) (mkCandidate (l.getD idx default) u).startMinutes)
        (mkCandidate (l.getD idx default) u).startMinutes
        (mkCandidate (l.getD idx default) u).endMinutes with
    | some nb =>
      simp only [editTask, h, hc] at h0
      exact absurd h0 (by simp)
    | none =>
      simp only [editTask, h, hc]
      rw [editInsertIdx_eq]
      constructor <;> trivial

theorem editTask_spec_witness :
    ([taskA540, taskC660].findIdx? (fun t => t.id == "a") = some 0) ∧
    editCandidate [taskA540, taskC660] "a" updA
      = some (mkCandidate ([taskA540, taskC660].getD 0 default) updA) ∧
    (editTask [taskA540, taskC660] "a" updA).success = true ∧
    (editTask [taskA540, taskC660] "a" updA).tasks
      = [mkCandidate ([taskA540, taskC660].getD 0 default) updA, taskC660] :=
  ⟨by decide, (editTask_spec [taskA540, taskC660] "a" updA 0 (by decide)).2.1,
    by decide, by decide⟩

/-- C3: `editTask` performs no duration validation: editing a task whose
interval is `[540, 600)` by overriding only `startMinutes` to `650`
succeeds, and the stored task afterwards has `endMinutes ≤ startMinutes`;
the `end > start` check exists only in `TaskFactory.create`, which rejects
the corresponding degenerate input. -/
theorem editTask_no_duration_check :
    (editTask [taskA540] "a" updOnlyStart).success = true ∧
    ((editTask [taskA540] "a" updOnlyStart).tasks.getD 0 default).endMinutes ≤
      ((editTask [taskA540] "a" updOnlyStart).tasks.getD 0 default).startMinutes ∧
    TaskFactory.create "x" 0 "T" "09:00" "09:00" "Low" none
      = Except.error "End time must be after start time." := by
  refine ⟨by decide, by decide, rfl⟩

/-- C4: the overlap predicate returns `true` exactly when
`aStart < bEnd ∧ bStart < aEnd`; in particular `[540, 600)` and `[600, 660)`
do not overlap (touching boundary), while `[540, 600)` and `[599, 660)`
do. -/
theorem overlaps_spec :
    (∀ aStart aEnd bStart bEnd : Nat,
      overlaps aStart aEnd bStart bEnd = true ↔ (aStart < bEnd ∧ bStart < aEnd)) ∧
    overlaps 540 600 600 660 = false ∧
    overlaps 540 600 599 660 = true := by
  refine ⟨?_, by decide, by decide⟩
  intro aS aE bS bE
  simp [overlaps]

/-- C5: if a neighbor at the computed insertion index conflicts with the
candidate, `addTask` fails with a message naming that neighbor's title and
time range, leaves the collection unchanged, performs no persistence
write, and still broadcasts the conflict message to the listeners. -/
theorem addTask_conflict_spec (l : List Task) (t nb : Task)
    (h : findConflict l (findInsertIndex l t.startMinutes)
      t.startMinutes t.endMinutes = some nb) :
    (addTask l t).success = false ∧
    (addTask l t).message =
      "Task conflicts with existing task \"" ++ nb.title ++ "\" (" ++
        minutesToHHMM nb.startMinutes ++ "-" ++ minutesToHHMM nb.endMinutes ++ ")." ∧
    (addTask l t).tasks = l ∧
    (addTask l t).saves = [] ∧
    (addTask l t).notes = [(addTask l t).message] := by
  simp only [addTask, h]
  refine ⟨?_, ?_, ?_, ?_, ?_⟩ <;> trivial

theorem addTask_conflict_spec_witness :
    findConflict [standup] (findInsertIndex [standup] overlapTask.startMinutes)
      overlapTask.startMinutes overlapTask.endMinutes = some standup ∧
    (addTask [standup] overlapTask).success = false ∧
    (addTask [standup] overlapTask).message
      = "Task conflicts with existing task \"Standup\" (09:00-10:00)." ∧
    (addTask [standup] overlapTask).tasks = [standup] := by
  have hmain := addTask_conflict_spec [standup] overlapTask standup (by decide)
  exact ⟨by decide, hmain.1, by decide, hmain.2.2.1⟩

/-- C6: on a sorted collection, `findInsertIndex` returns the leftmost
lower-bound index: it is at most the length, every task before it starts
strictly below the target, and every task at or after it starts at or
above the target; moreover the inline binary search of `editTask` computes
the same index on any collection. -/
theorem findInsertIndex_correct (l : List Task) (target : Nat)
    (hs : SortedByStart l) :
    findInsertIndex l target ≤ l.length ∧
    (∀ j, j < findInsertIndex l target →
      (l.getD j default).startMinutes < target) ∧
    (∀ j, findInsertIndex l target ≤ j → j < l.length →
      target ≤ (l.getD j default).startMinutes) ∧
    (∀ (arr : List Task) (s : Nat), editInsertIdx arr s = findInsertIndex arr s) := by
  have h := findInsertIndex_lowerBound l target hs.getD_mono
  exact ⟨h.1, h.2.1, h.2.2, editInsertIdx_eq⟩

theorem findInsertIndex_correct_witness :
    SortedByStart [taskA540, taskC660] ∧
    findInsertIndex [taskA540, taskC660] 600 ≤ [taskA540, taskC660].length :=
  ⟨by decide, (findInsertIndex_correct [taskA540, taskC660] 600 (by decide)).1⟩

/-- C7: after initialization (which re-sorts whatever the store returned)
and after every operation (`addTask`, `editTask`, `removeTaskById`,
`markCompleted`), `listTasks` returns the tasks sorted ascending by
`startMinutes`. -/
theorem listTasks_always_sorted :
    (∀ p : List Task, SortedByStart (listTasks (load p))) ∧
    (∀ (l : List Task) (op : Op), SortedByStart l →
      SortedByStart (listTasks (applyOp l op).tasks)) ∧
    (∀ (l : List Task) (id : String), SortedByStart l →
      SortedByStart (listTasks (markCompleted l id).tasks)) :=
  ⟨fun p => load_sorted p,
    fun l op hs => applyOp_sorted l op hs,
    fun l id hs => markCompleted_sorted l id hs⟩

theorem listTasks_always_sorted_witness :
    SortedByStart [taskA100] ∧
    SortedByStart (listTasks (applyOp [taskA100] (Op.add taskB300)).tasks) :=
  ⟨by decide, listTasks_always_sorted.2.1 [taskA100] (Op.add taskB300) (by decide)⟩

/-- C8: `listTasksByPriority` returns exactly the tasks whose priority
equals the trimmed argument case-insensitively, in schedule order (a
sublist of the schedule); a blank argument yields the empty list even when
the schedule is non-empty. -/
theorem listTasksByPriority_spec (l : List Task) (p : String) :
    (jsTrim p = "" → listTasksByPriority l p = []) ∧
    List.Sublist (listTasksByPriority l p) l ∧
    (∀ t, t ∈ listTasksByPriority l p ↔
      (t ∈ l ∧ jsToLower t.priority = jsToLower (jsTrim p) ∧ jsTrim p ≠ "")) := by
  refine ⟨?_, ?_, ?_⟩
  · intro h0
    rw [listTasksByPriority_eq, if_pos ((jsToLower_eq_empty _).mpr h0)]
  · rw [listTasksByPriority_eq]
    by_cases h0 : jsToLower (jsTrim p) = ""
    · rw [if_pos h0]
      exact List.nil_sublist l
    · rw [if_neg h0]
      exact List.filter_sublist l
  · intro t
    by_cases h0 : jsTrim p = ""
    · rw [listTasksByPriority_eq, if_pos ((jsToLower_eq_empty _).mpr h0)]
      simp [h0]
    · have hg : ¬ jsToLower (jsTrim p) = "" :=
        fun hh => h0 ((jsToLower_eq_empty _).mp hh)
      rw [listTasksByPriority_eq, if_neg hg, List.mem_filter]
      simp [h0]

theorem listTasksByPriority_spec_witness :
    jsTrim "  " = "" ∧ listTasksByPriority [taskA100] "  " = [] :=
  ⟨by decide, (listTasksByPriority_spec [taskA100] "  ").1 (by decide)⟩

/-- The field change `markCompleted` performs on the found task. -/
def setCompleted (t : Task) : Task :=
  { t with completed := true }

/-- C9: when a task with the given id exists, `markCompleted` succeeds and
replaces exactly that task by a copy with `completed := true` (same
position, all other fields and tasks unchanged), and a second call on the
same id succeeds again and leaves the state fixed. -/
theorem markCompleted_idempotent (l : List Task) (id : String) (idx : Nat)
    (h : l.findIdx? (fun t => t.id == id) = some idx) :
    (markCompleted l id).success = true ∧
    (markCompleted l id).tasks = l.set idx (setCompleted (l.getD idx default)) ∧
    (markCompleted (markCompleted l id).tasks id).success = true ∧
    (markCompleted (markCompleted l id).tasks id).tasks = (markCompleted l id).tasks := by
  obtain ⟨hlen, hp, hprev⟩ := List.findIdx?_eq_some_iff_getElem.mp h
  have hlen2 : idx < (l.set idx (setCompleted (l.getD idx default))).length := by
    rw [List.length_set]
    exact hlen
  have h2 : (markCompleted l id).tasks = l.set idx (setCompleted (l.getD idx default)) := by
    simp only [markCompleted, h]
    rfl
  have hp2 : ((l.set idx (setCompleted (l.getD idx default))).findIdx?
      (fun t => t.id == id)) = some idx := by
    apply List.findIdx?_eq_some_iff_getElem.mpr
    refine ⟨hlen2, ?_, ?_⟩
    · rw [List.getElem_set_self hlen2]
      show ((l.getD idx default).id == id) = true
      rw [getD_eq l idx hlen]
      exact hp
    · intro j hj
      rw [List.getElem_set_ne (by omega)]
      exact hprev j hj
  have hgd : (l.set idx (setCompleted (l.getD idx default))).getD idx default
      = setCompleted (l.getD idx default) := by
    rw [getD_eq _ idx hlen2]
    exact List.getElem_set_self hlen2
  refine ⟨by simp only [markCompleted, h], h2, ?_, ?_⟩
  · rw [h2]
    simp only [markCompleted, hp2]
  · rw [h2]
    simp only [markCompleted, hp2]
    rw [hgd, List.set_set]
    rfl

theorem markCompleted_idempotent_witness :
    ([taskA100].findIdx? (fun t => t.id == "a") = some 0) ∧
    (markCompleted [taskA100] "a").success = true ∧
    (markCompleted (markCompleted [taskA100] "a").tasks "a").tasks
      = (markCompleted [taskA100] "a").tasks :=
  ⟨by decide, (markCompleted_idempotent [taskA100] "a" 0 (by decide)).1,
    (markCompleted_idempotent [taskA100] "a" 0 (by decide)).2.2.2⟩

/-- C10: `load` sorts the persisted collection by `startMinutes` but runs
no overlap check: loading the overlapping pair `[0,100)`, `[50,150)`
produces a sorted live state that violates the adjacent-pair property, so
the no-overlap invariant is not re-established at startup. -/
theorem load_no_overlap_check :
    SortedByStart (load [taskP2, taskP1]) ∧
    ¬ ChainedByEnd (load [taskP2, taskP1]) := by
  refine ⟨by decide, by decide⟩

end Schedule
